import Mathlib

/-!
Formal model of the Auterion agent_protocol_splitter framing layer.

The repository ships `include/protocol_splitter.hpp`, which fixes the wire
format: the packed `Sp2Header_t` union with its documented bit layout, the
magic byte `Sp2HeaderMagic`, the header size, the serial buffer size
`BUFFER_SIZE` and the option defaults.  The implementation file with the
method bodies is not part of the sources here, so the pure header codec,
the inbound scan loop and the outbound locking discipline are modelled from
the specification document, on top of the wire layout fixed by the header
file.  Bytes are modelled as `Nat` values below 256 where boundedness
matters.
-/

namespace ProtocolSplitter

/-- Source constant: BUFFER_SIZE is defined as 280*3 in protocol_splitter.hpp
(line 52), commented as the maximum MAVLink message length, three times. -/
def BUFFER_SIZE : Nat := 280 * 3

/-- Source constant: DEFAULT_PASSTHROUGH_TIMEOUT_MS is 3000 (line 56). -/
def DEFAULT_PASSTHROUGH_TIMEOUT_MS : Nat := 3000

/-- Source enum: MessageType with Mavlink = 0x00 and Rtps = 0x01 (line 78). -/
inductive MessageType
  | Mavlink
  | Rtps
deriving DecidableEq

/-- Numeric value of the MessageType enum constants. -/
def MessageType.val : MessageType → Nat
  | .Mavlink => 0
  | .Rtps => 1

/-- Source constant: Sp2HeaderMagic is the character S, byte value 83 (line 80). -/
def Sp2HeaderMagic : Nat := 83

/-- Source constant: Sp2HeaderSize is 4 (line 81). -/
def Sp2HeaderSize : Nat := 4

/-- The fields view of the packed union Sp2Header_t (hpp lines 91-101):
magic byte, 7-bit high length part, 1-bit type tag, low length byte and
checksum byte. -/
structure Sp2Header_t where
  magic : Nat
  len_h : Nat
  type : MessageType
  len_l : Nat
  checksum : Nat
deriving DecidableEq

/-- XOR checksum of the three leading header bytes, as documented for the
checksum field of Sp2Header_t (hpp line 99). -/
def checksum (b0 b1 b2 : Nat) : Nat := b0 ^^^ b1 ^^^ b2

/-- The payload length announced by a header: len_h carries the high bits,
len_l the low byte (hpp lines 96-98). -/
def Sp2Header_t.payloadLen (h : Sp2Header_t) : Nat := h.len_h * 256 + h.len_l

/-- Byte 0 of the 4-byte view of the packed union: the magic byte
(hpp bit diagram, lines 83-90). -/
def Sp2Header_t.byte0 (h : Sp2Header_t) : Nat := h.magic

/-- Byte 1 of the 4-byte view: the type tag is the most significant bit of
header byte 1 (hpp comment lines 71-77) and the 7-bit len_h field occupies
the low bits. -/
def Sp2Header_t.byte1 (h : Sp2Header_t) : Nat := h.type.val * 128 + h.len_h

/-- Byte 2 of the 4-byte view: the low length byte. -/
def Sp2Header_t.byte2 (h : Sp2Header_t) : Nat := h.len_l

/-- Byte 3 of the 4-byte view: the checksum byte. -/
def Sp2Header_t.byte3 (h : Sp2Header_t) : Nat := h.checksum

/-- The full 4-byte wire image of a header. -/
def Sp2Header_t.bytes (h : Sp2Header_t) : List Nat :=
  [h.byte0, h.byte1, h.byte2, h.byte3]

/-- Largest value the length field can announce: 7 high bits plus 8 low bits
give a 15-bit field. -/
def lenFieldMax : Nat := 2 ^ 15 - 1

/-- Header construction for a given type tag and payload length, following
the layout of Sp2Header_t: len_h is the high part of the length, len_l the
low byte, and the checksum is the XOR of the three preceding bytes. -/
def mkHeader (mt : MessageType) (len : Nat) : Sp2Header_t :=
  let b0 := Sp2HeaderMagic
  let b1 := mt.val * 128 + len / 256
  let b2 := len % 256
  { magic := b0, len_h := len / 256, type := mt, len_l := b2,
    checksum := checksum b0 b1 b2 }

/-- Modelled from the spec: HeaderCodec.encode, whose body lives in the
implementation file absent from the sources.  It fails with InvalidLength
when the payload length exceeds the range of the length field or the
configured maximum frame size, and otherwise packs the header per the
Sp2Header_t layout. -/
def encode (mt : MessageType) (len : Nat) : Option Sp2Header_t :=
  if lenFieldMax < len ∨ BUFFER_SIZE < len then none else some (mkHeader mt len)

/-- Modelled from the spec: HeaderCodec.decode, whose body lives in the
implementation file absent from the sources.  It returns NotAFrame (here
`none`) when the first byte is not the magic constant or the checksum does
not verify; otherwise it reads the type tag from the most significant bit
of byte 1 and the length from the remaining bits, per the Sp2Header_t
layout. -/
def decode (b0 b1 b2 b3 : Nat) : Option Sp2Header_t :=
  if b0 = Sp2HeaderMagic ∧ b3 = checksum b0 b1 b2 then
    some { magic := b0, len_h := b1 % 128,
           type := if b1 / 128 % 2 = 1 then .Rtps else .Mavlink,
           len_l := b2, checksum := b3 }
  else none

/-- Link state of the passthrough state machine: Framed is the initial
state, Passthrough the terminal fallback. -/
inductive LinkMode
  | Framed
  | Passthrough
deriving DecidableEq

/-- Observable outputs of the inbound pipeline: a framed payload dispatched
to the UDP endpoint selected by the header type bit, or raw bytes forwarded
unmodified to an endpoint (the passthrough path always names the primary
Mavlink endpoint). -/
inductive OutEvent
  | dispatch (mt : MessageType) (payload : List Nat)
  | raw (mt : MessageType) (data : List Nat)
deriving DecidableEq

/-- Result of one scan pass: emitted outputs, the remaining buffer, the
time of the last recognized valid header, and the link mode. -/
structure ScanResult where
  outs : List OutEvent
  buf : List Nat
  lastSeen : Nat
  mode : LinkMode
deriving DecidableEq

/-- Header decode attempt at the head of a byte buffer; fails when fewer
than four bytes are available. -/
def decodeAt : List Nat → Option Sp2Header_t
  | b0 :: b1 :: b2 :: b3 :: _ => decode b0 b1 b2 b3
  | _ => none

/-- Modelled from the spec: the scan loop of the inbound pipeline
(DevSerial::read, whose body lives in the implementation file absent from
the sources).  While the buffer head can hold a full header it attempts a
decode.  On success it dispatches the announced payload to the endpoint
named by the type bit and notes the frame time, waiting for more bytes when
the payload is not yet fully buffered, or resynchronizing to the next magic
byte when the announced frame cannot fit the buffer at all.  On failure it
checks the passthrough timeout, latching to Passthrough and flushing the
remaining bytes raw to the primary endpoint when it has expired, and
otherwise advances the scan position by exactly one byte.  The fuel
argument bounds the iteration count; every iteration consumes at least one
byte, so fuel equal to the buffer length always suffices. -/
def framedScan (timeout t : Nat) : Nat → Nat → List Nat → ScanResult
  | 0, lastSeen, buf => ⟨[], buf, lastSeen, .Framed⟩
  | fuel + 1, lastSeen, buf =>
    match buf with
    | b0 :: b1 :: b2 :: b3 :: rest =>
      match decode b0 b1 b2 b3 with
      | some hd =>
        if hd.payloadLen ≤ rest.length then
          let r := framedScan timeout t fuel t (rest.drop hd.payloadLen)
          ⟨.dispatch hd.type (rest.take hd.payloadLen) :: r.outs,
            r.buf, r.lastSeen, r.mode⟩
        else if BUFFER_SIZE < Sp2HeaderSize + hd.payloadLen then
          framedScan timeout t fuel lastSeen
            ((b1 :: b2 :: b3 :: rest).dropWhile (fun b => b != Sp2HeaderMagic))
        else ⟨[], buf, lastSeen, .Framed⟩
      | none =>
        if timeout < t - lastSeen then
          ⟨[.raw .Mavlink buf], [], lastSeen, .Passthrough⟩
        else framedScan timeout t fuel lastSeen (b1 :: b2 :: b3 :: rest)
    | _ => ⟨[], buf, lastSeen, .Framed⟩

/-- One scan pass over a buffer, with fuel set to the buffer length. -/
def scanBuf (timeout t ls : Nat) (buf : List Nat) : ScanResult :=
  framedScan timeout t buf.length ls buf

/-- Pure frame parse of a complete buffer: time is frozen at zero, so the
passthrough timeout can never be exceeded and the scan stays in Framed
mode. -/
def parseFrames (buf : List Nat) : ScanResult := scanBuf 0 0 0 buf

/-- The wire image of a frame: the 4-byte packed header followed by the
payload bytes. -/
def frameBytes (mt : MessageType) (p : List Nat) : List Nat :=
  (mkHeader mt p.length).bytes ++ p

/-- State of the inbound serial pipeline: link mode, time of the last
recognized valid header, and the scan buffer. -/
structure SerialState where
  mode : LinkMode
  lastSeen : Nat
  buf : List Nat
deriving DecidableEq

/-- Modelled from the spec: processing of one chunk of serial bytes read at
time t.  In Passthrough mode every received byte is forwarded unmodified to
the primary Mavlink endpoint and headers are never parsed again; in Framed
mode the chunk is appended to the scan buffer and the scan loop runs. -/
def stepChunk (timeout : Nat) (s : SerialState) (t : Nat) (chunk : List Nat) :
    SerialState × List OutEvent :=
  if s.mode = .Passthrough then
    (⟨.Passthrough, s.lastSeen, []⟩, [.raw .Mavlink chunk])
  else
    (⟨(scanBuf timeout t s.lastSeen (s.buf ++ chunk)).mode,
      (scanBuf timeout t s.lastSeen (s.buf ++ chunk)).lastSeen,
      (scanBuf timeout t s.lastSeen (s.buf ++ chunk)).buf⟩,
     (scanBuf timeout t s.lastSeen (s.buf ++ chunk)).outs)

/-- Modelled from the spec: the inbound pipeline over a sequence of timed
read chunks. -/
def runInbound (timeout : Nat) :
    SerialState → List (Nat × List Nat) → SerialState × List OutEvent
  | s, [] => (s, [])
  | s, e :: evs =>
    let r1 := stepChunk timeout s e.1 e.2
    let r2 := runInbound timeout r1.1 evs
    (r2.1, r1.2 ++ r2.2)

/-- State of one outbound writer thread: idle between frames with its
remaining frames pending, or inside the critical section of the uart mutex
with the two chunks of the current frame (written as two consecutive write
calls: packed header, then payload) and a flag telling whether the first
chunk is already written. -/
inductive WriterState
  | idle (jobs : List (List Nat × List Nat))
  | hold (first : List Nat) (second : List Nat) (wroteFirst : Bool)
      (jobs : List (List Nat × List Nat))

/-- Whether a writer currently holds the uart mutex. -/
def WriterState.holding : WriterState → Bool
  | .idle _ => false
  | .hold _ _ _ _ => true

/-- Global state of the two outbound pipelines: the state of each writer
and the serial trace of write calls, each tagged with the writer that
issued it (false = primary Mavlink pipeline, true = secondary Rtps
pipeline). -/
structure SysState where
  w0 : WriterState
  w1 : WriterState
  trace : List (Bool × List Nat)

/-- Modelled from the spec: the interleaving semantics of the two outbound
pipelines sharing the uart mutex (uart_mtx in the hpp; the write paths live
in the implementation file absent from the sources).  A writer acquires the
lock only when the other writer does not hold it, performs the two write
calls of its current frame while holding it, and releases the lock with the
second write call.  The serial trace records every write call. -/
inductive Step : SysState → SysState → Prop
  | acq0 (f s : List Nat) (jobs : List (List Nat × List Nat))
      (w1 : WriterState) (tr : List (Bool × List Nat)) :
      w1.holding = false →
      Step ⟨.idle ((f, s) :: jobs), w1, tr⟩ ⟨.hold f s false jobs, w1, tr⟩
  | wr0a (f s : List Nat) (jobs : List (List Nat × List Nat))
      (w1 : WriterState) (tr : List (Bool × List Nat)) :
      Step ⟨.hold f s false jobs, w1, tr⟩
        ⟨.hold f s true jobs, w1, tr ++ [(false, f)]⟩
  | wr0b (f s : List Nat) (jobs : List (List Nat × List Nat))
      (w1 : WriterState) (tr : List (Bool × List Nat)) :
      Step ⟨.hold f s true jobs, w1, tr⟩ ⟨.idle jobs, w1, tr ++ [(false, s)]⟩
  | acq1 (f s : List Nat) (jobs : List (List Nat × List Nat))
      (w0 : WriterState) (tr : List (Bool × List Nat)) :
      w0.holding = false →
      Step ⟨w0, .idle ((f, s) :: jobs), tr⟩ ⟨w0, .hold f s false jobs, tr⟩
  | wr1a (f s : List Nat) (jobs : List (List Nat × List Nat))
      (w0 : WriterState) (tr : List (Bool × List Nat)) :
      Step ⟨w0, .hold f s false jobs, tr⟩
        ⟨w0, .hold f s true jobs, tr ++ [(true, f)]⟩
  | wr1b (f s : List Nat) (jobs : List (List Nat × List Nat))
      (w0 : WriterState) (tr : List (Bool × List Nat)) :
      Step ⟨w0, .hold f s true jobs, tr⟩ ⟨w0, .idle jobs, tr ++ [(true, s)]⟩

/-- Reachability along the step relation. -/
inductive Reach (s0 : SysState) : SysState → Prop
  | refl : Reach s0 s0
  | tail {s s2 : SysState} : Reach s0 s → Step s s2 → Reach s0 s2

/-- An initial state: both writers idle, empty serial trace. -/
def InitSys (s : SysState) : Prop :=
  ∃ J0 J1, s = ⟨.idle J0, .idle J1, []⟩

/-- The serial trace denoted by a list of completed frame groups: each
group contributes its two write-call chunks consecutively. -/
def expand : List (Bool × List Nat × List Nat) → List (Bool × List Nat)
  | [] => []
  | g :: gs => (g.1, g.2.1) :: (g.1, g.2.2) :: expand gs

/-- The trailing chunks of the frame currently being written, read off the
writer states: the first chunk of the writer that holds the lock and has
already issued its first write call. -/
def pendState (s : SysState) : List (Bool × List Nat) :=
  match s.w0, s.w1 with
  | .hold f _ true _, _ => [(false, f)]
  | _, .hold f _ true _ => [(true, f)]
  | _, _ => []

/-- The result of framedScan does not depend on the fuel as long as the
fuel is at least the buffer length. -/
theorem framedScan_fuel_irrel (timeout t : Nat) :
    ∀ (f1 : Nat) (f2 ls : Nat) (buf : List Nat), buf.length ≤ f1 →
      buf.length ≤ f2 →
      framedScan timeout t f1 ls buf = framedScan timeout t f2 ls buf := by
  intro f1
  induction f1 with
  | zero =>
    intro f2 ls buf h1 h2
    have hb : buf = [] := List.length_eq_zero.mp (Nat.le_zero.mp h1)
    subst hb
    cases f2 <;> rfl
  | succ f ih =>
    intro f2 ls buf h1 h2
    cases f2 with
    | zero =>
      have hb : buf = [] := List.length_eq_zero.mp (Nat.le_zero.mp h2)
      subst hb
      rfl
    | succ g =>
      rcases buf with _ | ⟨b0, _ | ⟨b1, _ | ⟨b2, _ | ⟨b3, rest⟩⟩⟩⟩
      · rfl
      · rfl
      · rfl
      · rfl
      · simp only [List.length_cons] at h1 h2
        simp only [framedScan]
        cases hdec : decode b0 b1 b2 b3 with
        | some hd =>
          simp only []
          by_cases hp : hd.payloadLen ≤ rest.length
          · rw [if_pos hp, if_pos hp,
              ih g t (rest.drop hd.payloadLen)
                (by simp only [List.length_drop]; omega)
                (by simp only [List.length_drop]; omega)]
          · rw [if_neg hp, if_neg hp]
            by_cases hbig : BUFFER_SIZE < Sp2HeaderSize + hd.payloadLen
            · rw [if_pos hbig, if_pos hbig]
              have hsuf :=
                (List.dropWhile_suffix
                  (fun b => b != Sp2HeaderMagic)
                  (l := b1 :: b2 :: b3 :: rest)).length_le
              simp only [List.length_cons] at hsuf
              exact ih g ls _ (by omega) (by omega)
            · rw [if_neg hbig, if_neg hbig]
        | none =>
          simp only []
          by_cases hto : timeout < t - ls
          · rw [if_pos hto, if_pos hto]
          · rw [if_neg hto, if_neg hto]
            exact ih g ls (b1 :: b2 :: b3 :: rest)
              (by simp only [List.length_cons]; omega)
              (by simp only [List.length_cons]; omega)

/-- Decoding the four packed bytes of a constructed header recovers the
type tag and the length, whenever the length is within the buffer bound. -/
theorem decode_mkHeader (mt : MessageType) (len : Nat)
    (hlen : len ≤ BUFFER_SIZE) :
    ∃ hd, decode (mkHeader mt len).byte0 (mkHeader mt len).byte1
        (mkHeader mt len).byte2 (mkHeader mt len).byte3 = some hd ∧
      hd.type = mt ∧ hd.payloadLen = len := by
  refine ⟨{ magic := (mkHeader mt len).byte0,
            len_h := (mkHeader mt len).byte1 % 128,
            type := if (mkHeader mt len).byte1 / 128 % 2 = 1 then
              MessageType.Rtps else MessageType.Mavlink,
            len_l := (mkHeader mt len).byte2,
            checksum := (mkHeader mt len).byte3 }, ?_, ?_, ?_⟩
  · simp only [decode]
    rw [if_pos ⟨rfl, rfl⟩]
  · simp only [BUFFER_SIZE] at hlen
    cases mt
    · simp only [mkHeader, MessageType.val, Sp2Header_t.byte1]
      rw [if_neg (by omega)]
    · simp only [mkHeader, MessageType.val, Sp2Header_t.byte1]
      rw [if_pos (by omega)]
  · simp only [BUFFER_SIZE] at hlen
    cases mt <;>
      simp only [mkHeader, MessageType.val, Sp2Header_t.byte1,
        Sp2Header_t.byte2, Sp2Header_t.payloadLen] <;>
      omega

/-- C1: for every sub-stream tag and every payload length not exceeding the
maximum, decoding the header produced by encode succeeds and recovers the
same tag and the same length. -/
theorem encode_decode_roundtrip (mt : MessageType) (len : Nat)
    (hlen : len ≤ BUFFER_SIZE) :
    ∃ hd hd', encode mt len = some hd ∧
      decode hd.byte0 hd.byte1 hd.byte2 hd.byte3 = some hd' ∧
      hd'.type = mt ∧ hd'.payloadLen = len := by
  have hb : ¬ (lenFieldMax < len ∨ BUFFER_SIZE < len) := by
    simp only [lenFieldMax, BUFFER_SIZE] at *
    omega
  obtain ⟨hd, hdec, hty, hpl⟩ := decode_mkHeader mt len hlen
  exact ⟨mkHeader mt len, hd, by simp [encode, hb], hdec, hty, hpl⟩

/-- Witness for C1 at the concrete input Rtps, length 4. -/
theorem encode_decode_roundtrip_w :
    ∃ hd hd', encode MessageType.Rtps 4 = some hd ∧
      decode hd.byte0 hd.byte1 hd.byte2 hd.byte3 = some hd' ∧
      hd'.type = MessageType.Rtps ∧ hd'.payloadLen = 4 :=
  encode_decode_roundtrip MessageType.Rtps 4 (by decide)

/-- C2: for a valid header (magic byte correct and checksum equal to the XOR
of the first three bytes), changing any single one of the four bytes to a
different value makes decode return NotAFrame. -/
theorem decode_single_byte_corruption (b0 b1 b2 b3 : Nat)
    (hmagic : b0 = Sp2HeaderMagic) (hchk : b3 = checksum b0 b1 b2) :
    (∀ c, c ≠ b0 → decode c b1 b2 b3 = none) ∧
    (∀ c, c ≠ b1 → decode b0 c b2 b3 = none) ∧
    (∀ c, c ≠ b2 → decode b0 b1 c b3 = none) ∧
    (∀ c, c ≠ b3 → decode b0 b1 b2 c = none) := by
  refine ⟨?_, ?_, ?_, ?_⟩
  · intro c hc
    have hneg : ¬ (c = Sp2HeaderMagic ∧ b3 = checksum c b1 b2) := by
      rintro ⟨h, -⟩
      exact hc (h.trans hmagic.symm)
    simp only [decode, if_neg hneg]
  · intro c hc
    have hneg : ¬ (b0 = Sp2HeaderMagic ∧ b3 = checksum b0 c b2) := by
      rintro ⟨-, h⟩
      have h2 : checksum b0 c b2 = checksum b0 b1 b2 := h.symm.trans hchk
      simp only [checksum] at h2
      exact hc (Nat.xor_right_inj.mp (Nat.xor_left_inj.mp h2))
    simp only [decode, if_neg hneg]
  · intro c hc
    have hneg : ¬ (b0 = Sp2HeaderMagic ∧ b3 = checksum b0 b1 c) := by
      rintro ⟨-, h⟩
      have h2 : checksum b0 b1 c = checksum b0 b1 b2 := h.symm.trans hchk
      simp only [checksum] at h2
      exact hc (Nat.xor_right_inj.mp h2)
    simp only [decode, if_neg hneg]
  · intro c hc
    have hneg : ¬ (b0 = Sp2HeaderMagic ∧ c = checksum b0 b1 b2) := by
      rintro ⟨-, h⟩
      exact hc (h.trans hchk.symm)
    simp only [decode, if_neg hneg]

/-- Witness for C2 at the valid header bytes 83, 0, 4, 87. -/
theorem decode_single_byte_corruption_w :
    decode 84 0 4 87 = none ∧ decode 83 1 4 87 = none ∧
    decode 83 0 5 87 = none ∧ decode 83 0 4 88 = none := by
  have h := decode_single_byte_corruption 83 0 4 87 (by decide) (by decide)
  exact ⟨h.1 84 (by decide), h.2.1 1 (by decide),
    h.2.2.1 5 (by decide), h.2.2.2 88 (by decide)⟩

/-- C5: byte 1 of the packed header carries the sub-stream tag in its most
significant bit and the high length bits in its low 7 bits, the announced
payload length equals the spec formula ((byte1 AND 0x7F) shifted left by 8)
OR byte2, and the 4-byte view lays the fields out in wire order. -/
theorem header_bitfield_layout (hd : Sp2Header_t)
    (h7 : hd.len_h < 128) (h8 : hd.len_l < 256) :
    hd.byte1 / 128 % 2 = hd.type.val ∧
    hd.byte1 % 128 = hd.len_h ∧
    (((hd.byte1 &&& 127) <<< 8) ||| hd.byte2) = hd.payloadLen ∧
    hd.bytes = [hd.magic, hd.type.val * 128 + hd.len_h, hd.len_l, hd.checksum] := by
  obtain ⟨m, lh, t, ll, c⟩ := hd
  simp only [Sp2Header_t.byte1, Sp2Header_t.byte2, Sp2Header_t.payloadLen,
    Sp2Header_t.bytes, Sp2Header_t.byte0, Sp2Header_t.byte3] at *
  refine ⟨?_, ?_, ?_, trivial⟩
  · cases t <;> simp only [MessageType.val] <;> omega
  · cases t <;> simp only [MessageType.val] <;> omega
  · have hand : (t.val * 128 + lh) &&& 127 = lh := by
      rw [show (127 : Nat) = 2 ^ 7 - 1 from by norm_num,
        Nat.and_pow_two_sub_one_eq_mod]
      cases t <;> simp only [MessageType.val] <;> omega
    have h8p : ll < 2 ^ 8 := by
      rw [show (2 : Nat) ^ 8 = 256 from by norm_num]
      exact h8
    have hor : 2 ^ 8 * lh + ll = 2 ^ 8 * lh ||| ll := Nat.mul_add_lt_is_or h8p lh
    rw [hand, Nat.shiftLeft_eq, Nat.mul_comm lh (2 ^ 8), ← hor]

/-- Witness for C5 at a concrete header with tag Rtps, len_h 2, len_l 9. -/
theorem header_bitfield_layout_w :
    let hd : Sp2Header_t :=
      { magic := 83, len_h := 2, type := .Rtps, len_l := 9, checksum := 0 }
    hd.byte1 / 128 % 2 = hd.type.val ∧
    hd.byte1 % 128 = hd.len_h ∧
    (((hd.byte1 &&& 127) <<< 8) ||| hd.byte2) = hd.payloadLen ∧
    hd.bytes = [hd.magic, hd.type.val * 128 + hd.len_h, hd.len_l, hd.checksum] :=
  header_bitfield_layout
    { magic := 83, len_h := 2, type := .Rtps, len_l := 9, checksum := 0 }
    (by decide) (by decide)

/-- C6: encode fails with InvalidLength exactly when the payload length
exceeds the range of the length field or the maximum frame size of
BUFFER_SIZE bytes; since the 15-bit field dominates the 840-byte buffer
bound, this is exactly length greater than BUFFER_SIZE, and every smaller
length succeeds. -/
theorem encode_invalid_length (mt : MessageType) (len : Nat) :
    (encode mt len = none ↔ (lenFieldMax < len ∨ BUFFER_SIZE < len)) ∧
    (encode mt len = none ↔ BUFFER_SIZE < len) ∧
    (len ≤ BUFFER_SIZE → encode mt len = some (mkHeader mt len)) := by
  rcases Nat.lt_or_ge BUFFER_SIZE len with h | h
  · have hcond : lenFieldMax < len ∨ BUFFER_SIZE < len := Or.inr h
    simp only [encode, if_pos hcond]
    exact ⟨by simp [hcond], by simp [h], fun hle => by omega⟩
  · have hcond : ¬ (lenFieldMax < len ∨ BUFFER_SIZE < len) := by
      simp only [lenFieldMax, BUFFER_SIZE] at *
      omega
    simp only [encode, if_neg hcond]
    refine ⟨by simp [hcond], ?_, fun _ => trivial⟩
    simp only [Option.some_ne_none, false_iff]
    omega

/-- Witness for C6 at Mavlink with lengths 841 and 840. -/
theorem encode_invalid_length_w :
    (encode MessageType.Mavlink 841 = none ↔ BUFFER_SIZE < 841) ∧
    encode MessageType.Mavlink 840 = some (mkHeader MessageType.Mavlink 840) :=
  ⟨(encode_invalid_length MessageType.Mavlink 841).2.1,
    (encode_invalid_length MessageType.Mavlink 840).2.2 (by decide)⟩

/-- C7 counterexample: swapping byte1 and byte2 does NOT change the XOR
checksum, already at the concrete distinct bytes 1 and 2. -/
theorem checksum_swap_counterexample :
    checksum Sp2HeaderMagic 1 2 = checksum Sp2HeaderMagic 2 1 ∧ (1 : Nat) ≠ 2 := by
  decide

/-- C7 amended: the checksum is deterministic, and swapping byte1 with byte2
never changes its value, because XOR is commutative. -/
theorem checksum_deterministic_swap_invariant :
    (∀ a0 a1 a2 b0 b1 b2 : Nat, a0 = b0 → a1 = b1 → a2 = b2 →
      checksum a0 a1 a2 = checksum b0 b1 b2) ∧
    (∀ b0 b1 b2 : Nat, checksum b0 b1 b2 = checksum b0 b2 b1) := by
  constructor
  · intro a0 a1 a2 b0 b1 b2 h0 h1 h2
    rw [h0, h1, h2]
  · intro b0 b1 b2
    simp only [checksum, Nat.xor_assoc]
    rw [Nat.xor_comm b1 b2]

/-- Witness for the amended C7 at the concrete bytes 83, 7, 9. -/
theorem checksum_deterministic_swap_invariant_w :
    checksum 83 7 9 = checksum 83 7 9 ∧ checksum 83 7 9 = checksum 83 9 7 :=
  ⟨checksum_deterministic_swap_invariant.1 83 7 9 83 7 9 rfl rfl rfl,
    checksum_deterministic_swap_invariant.2 83 7 9⟩

/-- C8 counterexample: the receive buffer of 280*3 bytes cannot hold three
frames of the maximum frame size that the spec fixes at three times the
largest 280-byte primary-protocol message. -/
theorem buffer_three_frames_counterexample :
    BUFFER_SIZE = 280 * 3 ∧ ¬ (3 * (3 * 280) ≤ BUFFER_SIZE) := by decide

/-- C8 amended: the serial receive buffer is 280*3 = 840 bytes, i.e. three
times the largest supported 280-byte primary-protocol message (so it holds
three maximum-size messages, or one maximum-size payload), but strictly
less than three maximum-size frames of the size the spec announces. -/
theorem buffer_size_three_messages :
    BUFFER_SIZE = 3 * 280 ∧ 3 * 280 ≤ BUFFER_SIZE ∧
    BUFFER_SIZE < 3 * (Sp2HeaderSize + 3 * 280) := by decide

/-- A failed decode with the timeout expired latches Passthrough and
flushes the buffer raw to the primary endpoint. -/
theorem scanBuf_fail_timeout (timeout t ls b0 b1 b2 b3 : Nat) (rest : List Nat)
    (hdec : decode b0 b1 b2 b3 = none) (hto : timeout < t - ls) :
    scanBuf timeout t ls (b0 :: b1 :: b2 :: b3 :: rest) =
      ⟨[.raw .Mavlink (b0 :: b1 :: b2 :: b3 :: rest)], [], ls, .Passthrough⟩ := by
  simp only [scanBuf, List.length_cons, framedScan, hdec, if_pos hto]

/-- A failed decode with the timeout not yet expired advances the scan
position by exactly one byte. -/
theorem scanBuf_fail_advance (timeout t ls b0 b1 b2 b3 : Nat) (rest : List Nat)
    (hdec : decode b0 b1 b2 b3 = none) (hto : ¬ timeout < t - ls) :
    scanBuf timeout t ls (b0 :: b1 :: b2 :: b3 :: rest) =
      scanBuf timeout t ls (b1 :: b2 :: b3 :: rest) := by
  simp only [scanBuf, List.length_cons, framedScan, hdec, if_neg hto]

/-- Buffer-level form of the one-byte advance on a failed decode. -/
theorem scanBuf_fail_advance_tail (timeout t ls : Nat) (buf : List Nat)
    (h4 : 4 ≤ buf.length) (hdec : decodeAt buf = none)
    (hto : ¬ timeout < t - ls) :
    scanBuf timeout t ls buf = scanBuf timeout t ls buf.tail := by
  rcases buf with _ | ⟨b0, _ | ⟨b1, _ | ⟨b2, _ | ⟨b3, rest⟩⟩⟩⟩
  · simp at h4
  · simp at h4
  · simp at h4
  · simp at h4
  · exact scanBuf_fail_advance timeout t ls b0 b1 b2 b3 rest hdec hto

/-- Buffer-level form of the Passthrough latch on a failed decode with the
timeout expired. -/
theorem scanBuf_fail_timeout_full (timeout t ls : Nat) (buf : List Nat)
    (h4 : 4 ≤ buf.length) (hdec : decodeAt buf = none)
    (hto : timeout < t - ls) :
    scanBuf timeout t ls buf = ⟨[.raw .Mavlink buf], [], ls, .Passthrough⟩ := by
  rcases buf with _ | ⟨b0, _ | ⟨b1, _ | ⟨b2, _ | ⟨b3, rest⟩⟩⟩⟩
  · simp at h4
  · simp at h4
  · simp at h4
  · simp at h4
  · exact scanBuf_fail_timeout timeout t ls b0 b1 b2 b3 rest hdec hto

/-- A successful decode with the payload fully buffered dispatches the
payload to the endpoint named by the header and continues past the frame,
noting the frame time. -/
theorem scanBuf_dispatch (timeout t ls : Nat) (hd : Sp2Header_t)
    (b0 b1 b2 b3 : Nat) (rest : List Nat)
    (hdec : decode b0 b1 b2 b3 = some hd)
    (hlen : hd.payloadLen ≤ rest.length) :
    scanBuf timeout t ls (b0 :: b1 :: b2 :: b3 :: rest) =
      ⟨.dispatch hd.type (rest.take hd.payloadLen) ::
          (scanBuf timeout t t (rest.drop hd.payloadLen)).outs,
        (scanBuf timeout t t (rest.drop hd.payloadLen)).buf,
        (scanBuf timeout t t (rest.drop hd.payloadLen)).lastSeen,
        (scanBuf timeout t t (rest.drop hd.payloadLen)).mode⟩ := by
  simp only [scanBuf, List.length_cons]
  rw [framedScan]
  simp only [hdec, if_pos hlen]
  rw [framedScan_fuel_irrel timeout t (rest.length + 1 + 1 + 1)
    (rest.drop hd.payloadLen).length t (rest.drop hd.payloadLen)
    (by simp only [List.length_drop]; omega) (Nat.le_refl _)]

/-- Scanning a well-formed frame at the head of the buffer dispatches its
payload to the endpoint named by its header and continues past it. -/
theorem scanBuf_frame (timeout t ls : Nat) (mt : MessageType)
    (p rest : List Nat) (hlen : p.length ≤ BUFFER_SIZE) :
    scanBuf timeout t ls (frameBytes mt p ++ rest) =
      ⟨.dispatch mt p :: (scanBuf timeout t t rest).outs,
        (scanBuf timeout t t rest).buf,
        (scanBuf timeout t t rest).lastSeen,
        (scanBuf timeout t t rest).mode⟩ := by
  obtain ⟨hd, hdec, hty, hpl⟩ := decode_mkHeader mt p.length hlen
  have hform : frameBytes mt p ++ rest =
      (mkHeader mt p.length).byte0 :: (mkHeader mt p.length).byte1 ::
        (mkHeader mt p.length).byte2 :: (mkHeader mt p.length).byte3 ::
        (p ++ rest) := by
    simp [frameBytes, Sp2Header_t.bytes]
  rw [hform,
    scanBuf_dispatch timeout t ls hd _ _ _ _ (p ++ rest) hdec
      (by rw [hpl]; simp)]
  rw [hpl, hty, List.take_left' rfl, List.drop_left' rfl]

/-- Garbage bytes at the head of the buffer, at no offset of which a header
decode succeeds, are skipped byte by byte without any output. -/
theorem scanBuf_skip_garbage (timeout t ls : Nat) (g rest : List Nat)
    (hto : ¬ timeout < t - ls) (h4 : 4 ≤ rest.length) :
    (∀ i, i < g.length → decodeAt ((g ++ rest).drop i) = none) →
    scanBuf timeout t ls (g ++ rest) = scanBuf timeout t ls rest := by
  induction g with
  | nil => intro _; rfl
  | cons b g ih =>
    intro hg
    rw [List.cons_append,
      scanBuf_fail_advance_tail timeout t ls (b :: (g ++ rest))
        (by simp; omega) (by simpa using hg 0 (by simp)) hto]
    exact ih (fun i hi => by simpa using hg (i + 1) (by simp; omega))

/-- C3 amended: a valid frame, followed by garbage bytes at no offset of
which a header decode succeeds, followed by another valid frame, makes the
scan loop dispatch exactly the two frame payloads, in stream order, each to
the endpoint selected by its own header type bit; and on any failed header
decode the scan position advances by exactly one byte. -/
theorem inbound_two_frames (mt1 mt2 : MessageType) (p1 p2 g : List Nat)
    (h1 : p1.length ≤ BUFFER_SIZE) (h2 : p2.length ≤ BUFFER_SIZE)
    (hg : ∀ i, i < g.length →
      decodeAt ((g ++ frameBytes mt2 p2).drop i) = none) :
    (parseFrames (frameBytes mt1 p1 ++ (g ++ frameBytes mt2 p2))).outs =
      [.dispatch mt1 p1, .dispatch mt2 p2] ∧
    (∀ buf : List Nat, 4 ≤ buf.length → decodeAt buf = none →
      parseFrames buf = parseFrames buf.tail) := by
  constructor
  · rw [parseFrames, scanBuf_frame 0 0 0 mt1 p1 (g ++ frameBytes mt2 p2) h1]
    simp only []
    rw [scanBuf_skip_garbage 0 0 0 g (frameBytes mt2 p2) (by omega)
      (by simp [frameBytes, Sp2Header_t.bytes]) hg]
    have hlast := scanBuf_frame 0 0 0 mt2 p2 [] h2
    rw [List.append_nil] at hlast
    rw [hlast]
    rfl
  · intro buf hb hdec
    exact scanBuf_fail_advance_tail 0 0 0 buf hb hdec (by omega)

/-- Witness for the amended C3: a Mavlink frame with payload [9], two
garbage bytes [0, 1], and an Rtps frame with payload [7]. -/
theorem inbound_two_frames_w :
    (parseFrames (frameBytes .Mavlink [9] ++
        ([0, 1] ++ frameBytes .Rtps [7]))).outs =
      [.dispatch .Mavlink [9], .dispatch .Rtps [7]] :=
  (inbound_two_frames .Mavlink .Rtps [9] [7] [0, 1]
    (by decide) (by decide) (by decide)).1

/-- C3 counterexample: when the garbage between the two valid frames itself
contains a valid frame, the scan dispatches three payloads, not exactly
two; the garbage [83, 128, 1, 210, 7] is the wire image of an Rtps frame
with payload [7]. -/
theorem inbound_garbage_counterexample :
    [83, 128, 1, 210, 7] = frameBytes .Rtps [7] ∧
    (parseFrames (frameBytes .Mavlink [9] ++
        ([83, 128, 1, 210, 7] ++ frameBytes .Mavlink [5]))).outs =
      [.dispatch .Mavlink [9], .dispatch .Rtps [7], .dispatch .Mavlink [5]] := by
  decide

/-- C4: once the link is latched to Passthrough, every step keeps it in
Passthrough and forwards the received chunk unmodified to the primary
Mavlink endpoint, even when the chunk is a perfectly valid header; while in
Framed state, a failed decode with the passthrough timeout expired latches
Passthrough; and from any Passthrough state the whole remaining run stays
in Passthrough, forwarding every chunk raw to the primary endpoint, so the
Framed-to-Passthrough transition can happen at most once in any run. -/
theorem passthrough_latch (timeout : Nat) :
    (∀ (s : SerialState) (t : Nat) (chunk : List Nat),
      s.mode = .Passthrough →
      (stepChunk timeout s t chunk).1.mode = .Passthrough ∧
      (stepChunk timeout s t chunk).2 = [.raw .Mavlink chunk]) ∧
    (∀ (s : SerialState) (t : Nat) (chunk : List Nat), s.mode = .Framed →
      4 ≤ (s.buf ++ chunk).length → decodeAt (s.buf ++ chunk) = none →
      timeout < t - s.lastSeen →
      (stepChunk timeout s t chunk).1.mode = .Passthrough ∧
      (stepChunk timeout s t chunk).2 = [.raw .Mavlink (s.buf ++ chunk)]) ∧
    (∀ (s : SerialState) (evs : List (Nat × List Nat)),
      s.mode = .Passthrough →
      (runInbound timeout s evs).1.mode = .Passthrough ∧
      (runInbound timeout s evs).2 =
        evs.map (fun e => .raw .Mavlink e.2)) := by
  have hstep : ∀ (s : SerialState) (t : Nat) (chunk : List Nat),
      s.mode = .Passthrough →
      stepChunk timeout s t chunk =
        (⟨.Passthrough, s.lastSeen, []⟩, [.raw .Mavlink chunk]) := by
    intro s t chunk hs
    simp only [stepChunk, if_pos hs]
  refine ⟨?_, ?_, ?_⟩
  · intro s t chunk hs
    rw [hstep s t chunk hs]
    exact ⟨rfl, rfl⟩
  · intro s t chunk hs h4 hdec hto
    have hmode : ¬ s.mode = LinkMode.Passthrough := by
      rw [hs]
      exact fun h => LinkMode.noConfusion h
    have hscan := scanBuf_fail_timeout_full timeout t s.lastSeen
      (s.buf ++ chunk) h4 hdec hto
    simp only [stepChunk, if_neg hmode, hscan]
    constructor <;> trivial
  · intro s evs hs
    induction evs generalizing s with
    | nil => exact ⟨hs, rfl⟩
    | cons e evs ih =>
      have h1 := hstep s e.1 e.2 hs
      have ih2 := ih ⟨.Passthrough, s.lastSeen, []⟩ rfl
      simp only [runInbound, h1]
      exact ⟨ih2.1, by rw [ih2.2]; simp⟩

/-- Witness for C4: with the default 3000 ms timeout, a Framed state that
last saw a frame at time 0 latches Passthrough on garbage read at time
4000, and a Passthrough state forwards even a perfectly valid Mavlink frame
raw to the primary endpoint while staying in Passthrough. -/
theorem passthrough_latch_w :
    (stepChunk DEFAULT_PASSTHROUGH_TIMEOUT_MS ⟨.Framed, 0, []⟩ 4000
        [0, 0, 0, 0]).1.mode = .Passthrough ∧
    (stepChunk DEFAULT_PASSTHROUGH_TIMEOUT_MS ⟨.Passthrough, 0, []⟩ 5000
        (frameBytes .Mavlink [9])).1.mode = .Passthrough ∧
    (stepChunk DEFAULT_PASSTHROUGH_TIMEOUT_MS ⟨.Passthrough, 0, []⟩ 5000
        (frameBytes .Mavlink [9])).2 =
      [.raw .Mavlink (frameBytes .Mavlink [9])] :=
  ⟨((passthrough_latch DEFAULT_PASSTHROUGH_TIMEOUT_MS).2.1
      ⟨.Framed, 0, []⟩ 4000 [0, 0, 0, 0] rfl (by decide) (by decide)
      (by decide)).1,
    ((passthrough_latch DEFAULT_PASSTHROUGH_TIMEOUT_MS).1
      ⟨.Passthrough, 0, []⟩ 5000 (frameBytes .Mavlink [9]) rfl).1,
    ((passthrough_latch DEFAULT_PASSTHROUGH_TIMEOUT_MS).1
      ⟨.Passthrough, 0, []⟩ 5000 (frameBytes .Mavlink [9]) rfl).2⟩

/-- Expanding an appended group list splits into the two expansions. -/
theorem expand_append (gs hs : List (Bool × List Nat × List Nat)) :
    expand (gs ++ hs) = expand gs ++ expand hs := by
  induction gs with
  | nil => rfl
  | cons g gs ih => simp [expand, ih]

/-- When no writer holds the lock there is no pending chunk. -/
theorem pendState_idle (s : SysState) (h0 : s.w0.holding = false)
    (h1 : s.w1.holding = false) : pendState s = [] := by
  obtain ⟨w0, w1, tr⟩ := s
  cases w0 with
  | idle J0 =>
    cases w1 with
    | idle J1 => rfl
    | hold f sc b jobs => simp [WriterState.holding] at h1
  | hold f sc b jobs => simp [WriterState.holding] at h0

/-- The lock and trace invariant of the outbound writers, by induction on
reachability: at most one writer is inside its critical section, and the
serial trace is a concatenation of complete two-chunk frame groups followed
by the pending first chunk of the writer currently holding the lock. -/
theorem reach_invariant (s0 s : SysState) (h0 : InitSys s0)
    (hr : Reach s0 s) :
    (s.w0.holding = false ∨ s.w1.holding = false) ∧
    ∃ gs, s.trace = expand gs ++ pendState s := by
  induction hr with
  | refl =>
    obtain ⟨J0, J1, rfl⟩ := h0
    exact ⟨Or.inl rfl, [], rfl⟩
  | tail hr2 hst ih =>
    obtain ⟨hmx, gs, htr⟩ := ih
    cases hst with
    | acq0 f sc jobs w1 tr hw1 =>
      cases w1 with
      | idle J1 => exact ⟨Or.inr rfl, gs, htr⟩
      | hold f2 s2 b2 j2 => simp [WriterState.holding] at hw1
    | wr0a f sc jobs w1 tr =>
      rcases hmx with h | h
      · simp [WriterState.holding] at h
      · cases w1 with
        | idle J1 =>
          have htr2 : tr = expand gs ++ [] := htr
          rw [List.append_nil] at htr2
          refine ⟨Or.inr rfl, gs, ?_⟩
          show tr ++ [(false, f)] = expand gs ++ [(false, f)]
          rw [htr2]
        | hold f2 s2 b2 j2 => simp [WriterState.holding] at h
    | wr0b f sc jobs w1 tr =>
      rcases hmx with h | h
      · simp [WriterState.holding] at h
      · cases w1 with
        | idle J1 =>
          have htr2 : tr = expand gs ++ [(false, f)] := htr
          refine ⟨Or.inl rfl, gs ++ [(false, f, sc)], ?_⟩
          show tr ++ [(false, sc)] = expand (gs ++ [(false, f, sc)]) ++ []
          rw [expand_append, htr2]
          simp [expand]
        | hold f2 s2 b2 j2 => simp [WriterState.holding] at h
    | acq1 f sc jobs w0 tr hw0 =>
      cases w0 with
      | idle J0 => exact ⟨Or.inl rfl, gs, htr⟩
      | hold f2 s2 b2 j2 => simp [WriterState.holding] at hw0
    | wr1a f sc jobs w0 tr =>
      rcases hmx with h | h
      · cases w0 with
        | idle J0 =>
          have htr2 : tr = expand gs ++ [] := htr
          rw [List.append_nil] at htr2
          refine ⟨Or.inl rfl, gs, ?_⟩
          show tr ++ [(true, f)] = expand gs ++ [(true, f)]
          rw [htr2]
        | hold f2 s2 b2 j2 => simp [WriterState.holding] at h
      · simp [WriterState.holding] at h
    | wr1b f sc jobs w0 tr =>
      rcases hmx with h | h
      · cases w0 with
        | idle J0 =>
          have htr2 : tr = expand gs ++ [(true, f)] := htr
          refine ⟨Or.inl rfl, gs ++ [(true, f, sc)], ?_⟩
          show tr ++ [(true, sc)] = expand (gs ++ [(true, f, sc)]) ++ []
          rw [expand_append, htr2]
          simp [expand]
        | hold f2 s2 b2 j2 => simp [WriterState.holding] at h
      · simp [WriterState.holding] at h

/-- C9: in every state reachable from an initial state of the two outbound
pipelines sharing the uart mutex, at most one writer is inside its critical
section, and the serial trace is a concatenation of contiguous per-frame
groups, the two write calls of each frame adjacent and in order, followed
only by the pending first chunk of the writer currently holding the lock;
when no writer holds the lock the trace is exactly the contiguous groups,
so the bytes of frames from the two pipelines are never interleaved. -/
theorem serial_writes_not_interleaved (s0 s : SysState) (h0 : InitSys s0)
    (hr : Reach s0 s) :
    (s.w0.holding = false ∨ s.w1.holding = false) ∧
    ∃ gs, s.trace = expand gs ++ pendState s ∧
      (s.w0.holding = false → s.w1.holding = false →
        s.trace = expand gs) := by
  obtain ⟨hmx, gs, htr⟩ := reach_invariant s0 s h0 hr
  refine ⟨hmx, gs, htr, fun hi0 hi1 => ?_⟩
  rw [htr, pendState_idle s hi0 hi1, List.append_nil]

/-- Witness for C9: a concrete three-step run in which the primary writer
acquires the lock and writes the frame chunks [1, 2] and [3]. -/
theorem serial_writes_not_interleaved_w :
    ((⟨.idle [], .idle [], [(false, [1, 2]), (false, [3])]⟩ :
        SysState).w0.holding = false ∨
      (⟨.idle [], .idle [], [(false, [1, 2]), (false, [3])]⟩ :
        SysState).w1.holding = false) ∧
    ∃ gs, (⟨.idle [], .idle [], [(false, [1, 2]), (false, [3])]⟩ :
        SysState).trace =
        expand gs ++
          pendState ⟨.idle [], .idle [], [(false, [1, 2]), (false, [3])]⟩ ∧
      ((⟨.idle [], .idle [], [(false, [1, 2]), (false, [3])]⟩ :
          SysState).w0.holding = false →
        (⟨.idle [], .idle [], [(false, [1, 2]), (false, [3])]⟩ :
          SysState).w1.holding = false →
        (⟨.idle [], .idle [], [(false, [1, 2]), (false, [3])]⟩ :
          SysState).trace = expand gs) :=
  serial_writes_not_interleaved
    ⟨.idle [([1, 2], [3])], .idle [], []⟩
    ⟨.idle [], .idle [], [(false, [1, 2]), (false, [3])]⟩
    ⟨[([1, 2], [3])], [], rfl⟩
    (Reach.tail
      (Reach.tail
        (Reach.tail Reach.refl
          (Step.acq0 [1, 2] [3] [] (.idle []) [] rfl))
        (Step.wr0a [1, 2] [3] [] (.idle []) []))
      (Step.wr0b [1, 2] [3] [] (.idle []) [(false, [1, 2])]))

end ProtocolSplitter
